import Mathlib

/-!
Shallow embedding of `full_auto_research_bot.py`.

The program drives a chat web surface to generate an article outline and to
research each outline section, appending the results to a text file.  The
definitions below translate, function by function, the pure control-flow and
text-processing logic of the source:

* the section extractor, i.e. the scan performed by
  `re.findall(r"(##\s(Introduction|Step \d+|Conclusion):.*?)(?=---)", text, re.DOTALL)`
  (line 89);
* the research loop of `research_each_step` (lines 97-157), with the
  per-section interaction session abstracted by its observable outcome and the
  file modelled as an explicit character-list state;
* the two-tier copy-button invocation (lines 58-63 / 131-136) and the
  surrounding session boundary of `generate_outline`;
* the Web-Search toggle guard (lines 34-38 / 110-111);
* the filename sanitization and empty-topic check of the main block
  (lines 162-174).

Strings are modelled as `List Char` throughout so that all definitions are
executable and all concrete facts are decidable.
-/

namespace ArticleBot

/-! ## Section extractor (line 89)

The Python regex is scanned left to right (`re.findall` semantics).  At each
position the engine tries to match
`(##\s(Introduction|Step \d+|Conclusion):.*?)(?=---)`; `re.DOTALL` makes `.`
match newlines, `.*?` is lazy, and the lookahead `(?=---)` consumes nothing.
On a match the scan resumes at the match end; otherwise it advances one
character. -/

/-- Lookahead for the literal separator token: does the text start with
three dashes (the regex lookahead `(?=---)`)? -/
def startsWithSep : List Char → Bool
  | [] => false
  | [_] => false
  | [_, _] => false
  | c1 :: c2 :: c3 :: _ => c1 == '-' && c2 == '-' && c3 == '-'

/-- Match a literal sequence of characters, returning the remainder of the
input on success. -/
def matchLit : List Char → List Char → Option (List Char)
  | [], l => some l
  | _ :: _, [] => none
  | p :: ps, c :: cs => if c = p then matchLit ps cs else none

/-- Match the `Step \d+` alternative of the label group: the literal
`Step ` followed by a nonempty run of digits.  Greedy `\d+` followed by a
required `:` is equivalent to taking the maximal digit run, since
backtracking into the run can never make the following `:` match a digit. -/
def matchStepLabel (l : List Char) : Option (List Char × List Char) :=
  match matchLit "Step ".data l with
  | some rest =>
    if rest.takeWhile Char.isDigit = [] then none
    else some ("Step ".data ++ rest.takeWhile Char.isDigit, rest.dropWhile Char.isDigit)
  | none => none

/-- Match the capture group `(Introduction|Step \d+|Conclusion)`, trying the
alternatives in the regex order.  Returns the matched label and the
remainder. -/
def matchLabel (l : List Char) : Option (List Char × List Char) :=
  match matchLit "Introduction".data l with
  | some rest => some ("Introduction".data, rest)
  | none =>
    match matchStepLabel l with
    | some p => some p
    | none =>
      match matchLit "Conclusion".data l with
      | some rest => some ("Conclusion".data, rest)
      | none => none

/-- Match the heading part `##\s(Introduction|Step \d+|Conclusion):` at the
start of the input.  Returns the raw matched heading text (through the
colon), the captured label, and the remainder. -/
def matchHeading : List Char → Option (List Char × List Char × List Char)
  | [] => none
  | [_] => none
  | [_, _] => none
  | c1 :: c2 :: c3 :: rest =>
    if c1 = '#' ∧ c2 = '#' ∧ c3.isWhitespace then
      match matchLabel rest with
      | some (lab, rest2) =>
        match rest2 with
        | c4 :: rest3 =>
          if c4 = ':' then some (c1 :: c2 :: c3 :: (lab ++ [':']), lab, rest3) else none
        | [] => none
      | none => none
    else none

/-- Lazy `.*?` under `re.DOTALL` followed by the lookahead `(?=---)`: consume
the minimal number of characters (newlines included) until the remaining
input starts with `---`; fail if no `---` follows. -/
def lazyBody : List Char → Option (List Char × List Char)
  | [] => none
  | c :: cs =>
    if startsWithSep (c :: cs) then some ([], c :: cs)
    else
      match lazyBody cs with
      | some (b, r) => some (c :: b, r)
      | none => none

/-- Attempt the whole regex at the current position.  Returns
(group 1 = full heading plus lazily captured body, group 2 = label,
remainder at which the scan resumes — the lookahead consumes nothing, so the
remainder still starts with `---`). -/
def tryMatch (l : List Char) : Option (List Char × List Char × List Char) :=
  match matchHeading l with
  | some (hraw, lab, rest) =>
    match lazyBody rest with
    | some (body, rest2) => some (hraw ++ body, lab, rest2)
    | none => none
  | none => none

/-- Fuelled left-to-right scan implementing `re.findall`: at each position
try the pattern; on success record the groups and resume at the match end,
otherwise advance one character. -/
def scanAux : Nat → List Char → List (List Char × List Char)
  | 0, _ => []
  | fuel + 1, l =>
    match l with
    | [] => []
    | c :: cs =>
      match tryMatch (c :: cs) with
      | some (raw, lab, rest) => (raw, lab) :: scanAux fuel rest
      | none => scanAux fuel cs

/-- The `re.findall` scan over a text, with enough fuel to finish. -/
def scan (l : List Char) : List (List Char × List Char) :=
  scanAux l.length l

/-- The `sections` list of `research_each_step` (line 89): pairs of
(group 1 raw block, group 2 title). -/
def sections (outline : List Char) : List (List Char × List Char) :=
  scan outline

/-- The `section_titles` list (line 94): `[s[1] for s in sections]`. -/
def sectionTitles (outline : List Char) : List (List Char) :=
  (sections outline).map (fun p => p.2)

/-! ## Research orchestrator (lines 97-157)

Each loop iteration runs one interaction session on a fresh page; the session
is abstracted by its observable outcome: either the clipboard text read at
line 141 (possibly empty), or the message of the exception caught by the
per-section handler at line 150. -/

/-- Observable outcome of one per-section interaction session: the clipboard
text pasted at line 141 (possibly empty), or the exception caught by the
handler at line 150. -/
inductive SessionOutcome
  | ok (text : List Char)
  | exn (msg : List Char)

/-- The `'=' * 20` run used in the record delimiter (line 146). -/
def eqs20 : List Char := List.replicate 20 '='

/-- Python `str.upper()` on a section title (line 146), ASCII model. -/
def upperChars (t : List Char) : List Char := t.map Char.toUpper

/-- The delimiter text written for a successful section (line 146), without
the surrounding blank lines: twenty `=`, a space, the uppercased title, a
space, twenty `=`. -/
def delimLine (t : List Char) : List Char :=
  eqs20 ++ ' ' :: upperChars t ++ ' ' :: eqs20

/-- The substitute body written when the clipboard came back empty
(line 143). -/
def copyFailBody (t : List Char) : List Char :=
  "--- ERROR: FAILED TO COPY CONTENT FOR ".data ++ t ++ " ---\n".data

/-- The record written on the success path (lines 145-147): two newlines,
the delimiter line, two newlines, then the body. -/
def okRecord (t body : List Char) : List Char :=
  "\n\n".data ++ delimLine t ++ "\n\n".data ++ body

/-- The record written by the per-section exception handler (lines 152-153). -/
def errRecord (t e : List Char) : List Char :=
  "\n\n--- ERROR DURING RESEARCH FOR: ".data ++ t ++ " ---\nDetails: ".data ++
    e ++ "\n\n".data

/-- The text appended to the output file for one section, by outcome:
clipboard text (with the empty-clipboard substitution of lines 142-143) on
the success path, or the error annotation of lines 152-153 on the exception
path. -/
def sectionRecord (t : List Char) : SessionOutcome → List Char
  | .ok txt => okRecord t (if txt = [] then copyFailBody t else txt)
  | .exn e => errRecord t e

/-- Observable events of the research loop: opening a session for a section,
and appending text to the output file. -/
inductive Event
  | sessionRun (title : List Char)
  | append (text : List Char)

/-- The event trace of the `for i, section_title in enumerate(section_titles)`
loop (lines 97-157): for each section, in order, one interaction session
followed immediately by one file append of that section's record. -/
def runLoop (o : Nat → SessionOutcome) : Nat → List (List Char) → List Event
  | _, [] => []
  | i, t :: ts =>
    .sessionRun t :: .append (sectionRecord t (o i)) :: runLoop o (i + 1) ts

/-- Replay an event trace against a file state: appends extend the file at
the end (`open(output_filepath, 'a')`), sessions leave it unchanged. -/
def applyEvents : List Char → List Event → List Char
  | f, [] => f
  | f, .sessionRun _ :: es => applyEvents f es
  | f, .append s :: es => applyEvents (f ++ s) es

/-- The per-section records, in loop order, starting from loop index `i`. -/
def recordsFrom (o : Nat → SessionOutcome) : Nat → List (List Char) → List (List Char)
  | _, [] => []
  | i, t :: ts => sectionRecord t (o i) :: recordsFrom o (i + 1) ts

/-- Result of `research_each_step`: either the early return of lines 90-92
(no sections recognized, reported to the console) or the event trace of the
research loop. -/
inductive ResearchOutcome
  | noSectionsFound
  | ran (events : List Event)

/-- The control flow of `research_each_step` (lines 82-157): extract the
section titles; if none were found, report and stop before any session or
write; otherwise run the loop over all titles. -/
def research_each_step (o : Nat → SessionOutcome) (outline : List Char) :
    ResearchOutcome :=
  if sectionTitles outline = [] then .noSectionsFound
  else .ran (runLoop o 0 (sectionTitles outline))

/-- Count of interaction sessions performed by a research run. -/
def sessionsOf : ResearchOutcome → Nat
  | .noSectionsFound => 0
  | .ran es => es.countP (fun e => match e with | .sessionRun _ => true | .append _ => false)

/-- Count of file appends performed by a research run. -/
def appendsOf : ResearchOutcome → Nat
  | .noSectionsFound => 0
  | .ran es => es.countP (fun e => match e with | .sessionRun _ => false | .append _ => true)

/-- Final contents of the output file after a research run that started from
file contents `f`. -/
def finalFile (f : List Char) : ResearchOutcome → List Char
  | .noSectionsFound => f
  | .ran es => applyEvents f es

/-! ## Interaction session and two-tier trigger (lines 22-78, 131-136)

The copy-button invocation is
`try: final_copy_button.click(timeout=15000) except TimeoutError:
final_copy_button.dispatch_event('click')` — only a `TimeoutError` from the
primary click reaches the fallback; any other exception propagates to the
session-boundary handler. -/

/-- Possible behaviours of one click attempt on the copy button: it goes
through, it times out (`TimeoutError`), or it raises some other exception. -/
inductive ClickResult
  | clicked
  | timeout
  | raised (e : List Char)

/-- The two-tier copy-button invocation (lines 58-63 and 131-136).  Returns
how many times the fallback `dispatch_event('click')` is invoked, and the
exception (if any) escaping the step to the session-boundary handler. -/
def triggerExtraction : ClickResult → ClickResult → Nat × Option (List Char)
  | .clicked, _ => (0, none)
  | .timeout, .clicked => (1, none)
  | .timeout, .timeout => (1, some "TimeoutError".data)
  | .timeout, .raised e => (1, some e)
  | .raised e, _ => (0, some e)

/-- Abstract environment of one `generate_outline` session: what the page,
the copy button and the clipboard do at each suspension point. -/
structure SessionEnv where
  navError : Option (List Char)
  dataState : Option (List Char)
  responseAppeared : Bool
  primaryClick : ClickResult
  fallbackClick : ClickResult
  clipboard : List Char

/-- The body of the `try` block of `generate_outline` (lines 23-74): any
navigation/setup exception, a response-wait timeout (line 52), or an
exception escaping the trigger step aborts the body; otherwise the body
produces the clipboard text. -/
def sessionBody (env : SessionEnv) : Except (List Char) (List Char) :=
  match env.navError with
  | some e => .error e
  | none =>
    if env.responseAppeared then
      match triggerExtraction env.primaryClick env.fallbackClick with
      | (_, some e) => .error e
      | (_, none) => .ok env.clipboard
    else .error "TimeoutError".data

/-- The whole of `generate_outline` (lines 16-78): the session body under the
boundary handler `except Exception: return None`, plus the empty-clipboard
check of lines 69-71. -/
def generate_outline (env : SessionEnv) : Option (List Char) :=
  match sessionBody env with
  | .error _ => none
  | .ok txt => if txt = [] then none else some txt

/-! ## Web-Search toggle guard (lines 34-38 and 110-111) -/

/-- Number of clicks on the Web-Search checkbox performed by the enable step,
as a function of the observed `data-state` attribute (`get_attribute` yields
`none` when the attribute is absent): the checkbox is clicked exactly when
the attribute reads the string `unchecked`. -/
def toggleClicks (dataState : Option (List Char)) : Nat :=
  if dataState = some "unchecked".data then 1 else 0

/-! ## Main block (lines 161-174) -/

/-- The fatal empty-input check `if not main_topic` (line 163), applied to
the raw topic: a Python string is falsy exactly when it is empty. -/
def earlyExit (topic : List Char) : Bool := topic.isEmpty

/-- Character filter of the sanitizer (line 172): keep alphanumerics, the
space, and the underscore. -/
def keepChar (c : Char) : Bool := c.isAlphanum || c == ' ' || c == '_'

/-- Python `str.rstrip()`: drop trailing whitespace. -/
def rstripChars (l : List Char) : List Char :=
  (l.reverse.dropWhile Char.isWhitespace).reverse

/-- Python `str.replace(' ', '_')` applied characterwise. -/
def replaceSpace (c : Char) : Char := if c == ' ' then '_' else c

/-- The sanitizer of line 172:
`"".join(c for c in main_topic if c.isalnum() or c in (' ', '_')).rstrip().replace(' ', '_')`. -/
def safe_topic (t : List Char) : List Char :=
  (rstripChars (t.filter keepChar)).map replaceSpace

/-- The output filename of line 173:
`f"article_research_{safe_topic}_{timestamp}.txt"`. -/
def output_filename (topic timestamp : List Char) : List Char :=
  "article_research_".data ++ safe_topic topic ++ "_".data ++ timestamp ++ ".txt".data

/-! ## Spec-side definitions and witness data -/

/-- Valid section labels per the marker grammar consumed by the regex:
`Introduction`, `Conclusion`, or `Step ` followed by a nonempty digit run. -/
def validLabelB (lab : List Char) : Bool :=
  lab == "Introduction".data || lab == "Conclusion".data ||
    (lab.take 5 == "Step ".data && !(lab.drop 5).isEmpty &&
      (lab.drop 5).all Char.isDigit)

/-- Modelled from the spec (sections 4.1 and 6): a well-formed outline is the
concatenation of sections, each a heading `## <label>: <body>` terminated by
a literal `---` separator. -/
def mkOutline : List (List Char × List Char) → List Char
  | [] => []
  | p :: rest =>
    '#' :: '#' :: ' ' :: (p.1 ++ ':' :: (p.2 ++ '-' :: '-' :: '-' :: mkOutline rest))

/-- Modelled from the spec: keep alphanumerics, spaces, and underscores. -/
def specKeepAllowed (t : List Char) : List Char :=
  t.filter (fun c => c.isAlphanum || c == ' ' || c == '_')

/-- Modelled from the spec: trim trailing whitespace. -/
def specTrimTrailing (l : List Char) : List Char :=
  (l.reverse.dropWhile Char.isWhitespace).reverse

/-- Modelled from the spec: replace spaces with underscores. -/
def specReplaceSpaces (l : List Char) : List Char :=
  l.map (fun c => if c == ' ' then '_' else c)

/-- Modelled from the spec: the sanitization pipeline in the spec's order —
keep alphanumerics, spaces and underscores, trim trailing whitespace, then
replace spaces with underscores. -/
def specSanitize (t : List Char) : List Char :=
  specReplaceSpaces (specTrimTrailing (specKeepAllowed t))

/-- Concrete per-section outcomes used by witnesses: section 0 succeeds,
every later section raises. -/
def outcomesW : Nat → SessionOutcome :=
  fun k => if k = 0 then .ok "alpha".data else .exn "boom".data

example : sections "## Introduction: hi---".data =
    [("## Introduction: hi".data, "Introduction".data)] := by decide

example : sections "## Introduction: hi".data = [] := by decide

example :
    sectionTitles "## Step 12: a\nb\n---\nx## Conclusion: c---".data =
      ["Step 12".data, "Conclusion".data] := by decide

example : safe_topic "AI & ML: 2024!".data = "AI__ML_2024".data := by decide

/-! ## Lemmas about the extractor scan -/

theorem matchLit_self_append : ∀ (p r : List Char), matchLit p (p ++ r) = some r
  | [], _ => rfl
  | c :: ps, r => by simp [matchLit, matchLit_self_append ps r]

theorem matchLit_ne_head (p : Char) (ps : List Char) (c : Char) (cs : List Char)
    (h : c ≠ p) : matchLit (p :: ps) (c :: cs) = none := by
  simp [matchLit, h]

theorem matchLit_head_ne (d : Char) (p : List Char) (c : Char) (cs : List Char)
    (hp : p.head? = some d) (hc : c ≠ d) : matchLit p (c :: cs) = none := by
  cases p with
  | nil => simp at hp
  | cons e es =>
    simp [List.head?] at hp
    subst hp
    exact matchLit_ne_head e es c cs hc

theorem matchLit_length (p : List Char) :
    ∀ (l r : List Char), matchLit p l = some r → r.length ≤ l.length := by
  induction p with
  | nil =>
    intro l r h
    simp [matchLit] at h
    subst h
    exact le_rfl
  | cons c ps ih =>
    intro l r h
    cases l with
    | nil => simp [matchLit] at h
    | cons d ds =>
      by_cases hd : d = c
      · rw [matchLit, if_pos hd] at h
        exact le_trans (ih ds r h) (Nat.le_succ _)
      · rw [matchLit, if_neg hd] at h
        exact absurd h (by simp)

theorem matchStepLabel_length (l : List Char) (lab r : List Char)
    (h : matchStepLabel l = some (lab, r)) : r.length ≤ l.length := by
  unfold matchStepLabel at h
  split at h
  · rename_i rest h1
    split at h
    · exact absurd h (by simp)
    · simp at h
      obtain ⟨_, hr⟩ := h
      subst hr
      calc (rest.dropWhile Char.isDigit).length ≤ rest.length :=
            (List.dropWhile_sublist Char.isDigit).length_le
        _ ≤ l.length := matchLit_length _ _ _ h1
  · exact absurd h (by simp)

theorem matchLabel_length (l : List Char) (lab r : List Char)
    (h : matchLabel l = some (lab, r)) : r.length ≤ l.length := by
  unfold matchLabel at h
  split at h
  · rename_i rest h1
    simp at h
    obtain ⟨_, hr⟩ := h
    subst hr
    exact matchLit_length _ _ _ h1
  · rename_i h1
    split at h
    · rename_i p h2
      simp at h
      exact matchStepLabel_length l lab r (by rw [h2, h])
    · rename_i h2
      split at h
      · rename_i rest h3
        simp at h
        obtain ⟨_, hr⟩ := h
        subst hr
        exact matchLit_length _ _ _ h3
      · exact absurd h (by simp)

theorem lazyBody_length (l : List Char) :
    ∀ (b r : List Char), lazyBody l = some (b, r) → r.length ≤ l.length := by
  induction l with
  | nil => intro b r h; simp [lazyBody] at h
  | cons c cs ih =>
    intro b r h
    by_cases hs : startsWithSep (c :: cs) = true
    · rw [lazyBody, if_pos hs] at h
      simp at h
      obtain ⟨_, hr⟩ := h
      subst hr
      exact le_rfl
    · rw [lazyBody, if_neg hs] at h
      cases hlb : lazyBody cs with
      | none => rw [hlb] at h; simp at h
      | some p =>
        rw [hlb] at h
        simp at h
        obtain ⟨_, hr⟩ := h
        subst hr
        exact le_trans (ih p.1 p.2 (by rw [hlb])) (Nat.le_succ _)

theorem matchHeading_length (l : List Char) (hraw lab r : List Char)
    (h : matchHeading l = some (hraw, lab, r)) : r.length < l.length := by
  unfold matchHeading at h
  split at h
  · exact absurd h (by simp)
  · exact absurd h (by simp)
  · exact absurd h (by simp)
  · rename_i c1 c2 c3 rest
    split at h
    · rename_i hc
      split at h
      · rename_i lab2 rest2 hm
        split at h
        · rename_i c4 rest3
          split at h
          · rename_i h4
            simp at h
            obtain ⟨_, _, hr⟩ := h
            subst hr
            have := matchLabel_length rest lab2 (c4 :: rest3) hm
            simp only [List.length_cons] at this ⊢
            omega
          · exact absurd h (by simp)
        · exact absurd h (by simp)
      · exact absurd h (by simp)
    · exact absurd h (by simp)

theorem tryMatch_length (l : List Char) (raw lab r : List Char)
    (h : tryMatch l = some (raw, lab, r)) : r.length < l.length := by
  unfold tryMatch at h
  split at h
  · rename_i hraw lab2 rest hh
    split at h
    · rename_i body rest2 hb
      simp at h
      obtain ⟨_, _, hr⟩ := h
      subst hr
      exact lt_of_le_of_lt (lazyBody_length rest body rest2 hb)
        (matchHeading_length l hraw lab2 rest hh)
    · exact absurd h (by simp)
  · exact absurd h (by simp)

theorem scanAux_nil : ∀ f, scanAux f [] = []
  | 0 => rfl
  | _ + 1 => rfl

theorem scanAux_congr :
    ∀ (n : Nat) (l : List Char), l.length ≤ n →
      ∀ f g, l.length ≤ f → l.length ≤ g → scanAux f l = scanAux g l := by
  intro n
  induction n with
  | zero =>
    intro l hl f g _ _
    have : l = [] := List.length_eq_zero.mp (Nat.le_zero.mp hl)
    subst this
    rw [scanAux_nil, scanAux_nil]
  | succ n ih =>
    intro l hl f g hf hg
    cases l with
    | nil => rw [scanAux_nil, scanAux_nil]
    | cons c cs =>
      simp only [List.length_cons] at hl hf hg
      cases f with
      | zero => omega
      | succ f =>
        cases g with
        | zero => omega
        | succ g =>
          cases ht : tryMatch (c :: cs) with
          | none =>
            simp only [scanAux, ht]
            exact ih cs (by omega) f g (by omega) (by omega)
          | some trip =>
            obtain ⟨raw, lab, rest⟩ := trip
            have hrest : rest.length < cs.length + 1 := by
              have := tryMatch_length (c :: cs) raw lab rest ht
              simpa using this
            simp only [scanAux, ht]
            rw [ih rest (by omega) f g (by omega) (by omega)]

theorem scan_cons_none (c : Char) (cs : List Char) (h : tryMatch (c :: cs) = none) :
    scan (c :: cs) = scan cs := by
  show scanAux (c :: cs).length (c :: cs) = scanAux cs.length cs
  simp only [List.length_cons, scanAux, h]

theorem scan_cons_some (c : Char) (cs raw lab rest : List Char)
    (h : tryMatch (c :: cs) = some (raw, lab, rest)) :
    scan (c :: cs) = (raw, lab) :: scan rest := by
  have hlen : rest.length ≤ cs.length := by
    have := tryMatch_length (c :: cs) raw lab rest h
    simp only [List.length_cons] at this
    omega
  show scanAux (c :: cs).length (c :: cs) = (raw, lab) :: scanAux rest.length rest
  simp only [List.length_cons, scanAux, h]
  rw [scanAux_congr cs.length rest hlen cs.length rest.length hlen le_rfl]

/-! ## Matching a well-formed section -/

theorem matchLabel_intro (rest : List Char) :
    matchLabel ("Introduction".data ++ ':' :: rest) =
      some ("Introduction".data, ':' :: rest) := by
  unfold matchLabel
  rw [matchLit_self_append]

theorem matchLabel_concl (rest : List Char) :
    matchLabel ("Conclusion".data ++ ':' :: rest) =
      some ("Conclusion".data, ':' :: rest) := by
  have h1 : ("Conclusion".data ++ ':' :: rest) =
      'C' :: ("onclusion".data ++ ':' :: rest) := rfl
  have h2 : matchLit "Introduction".data ('C' :: ("onclusion".data ++ ':' :: rest)) = none :=
    matchLit_head_ne 'I' _ 'C' _ (by decide) (by decide)
  have h3 : matchLit "Step ".data ('C' :: ("onclusion".data ++ ':' :: rest)) = none :=
    matchLit_head_ne 'S' _ 'C' _ (by decide) (by decide)
  have h4 : matchLit "Conclusion".data ("Conclusion".data ++ ':' :: rest) =
      some (':' :: rest) := matchLit_self_append _ _
  rw [h1] at h4
  unfold matchLabel matchStepLabel
  rw [h1, h2, h3, h4]

theorem takeWhile_digits_append (ds : List Char) :
    ∀ rest : List Char, ds.all Char.isDigit = true →
      ((ds ++ ':' :: rest).takeWhile Char.isDigit = ds ∧
        (ds ++ ':' :: rest).dropWhile Char.isDigit = ':' :: rest) := by
  induction ds with
  | nil =>
    intro rest _
    constructor
    · rw [List.nil_append, List.takeWhile_cons_of_neg (by decide)]
    · rw [List.nil_append, List.dropWhile_cons_of_neg (by decide)]
  | cons d ds ih =>
    intro rest hall
    simp only [List.all_cons, Bool.and_eq_true] at hall
    obtain ⟨hd, hds⟩ := hall
    obtain ⟨iht, ihd⟩ := ih rest hds
    constructor
    · rw [List.cons_append, List.takeWhile_cons_of_pos hd, iht]
    · rw [List.cons_append, List.dropWhile_cons_of_pos hd, ihd]

theorem matchLabel_step (ds : List Char) (rest : List Char)
    (hne : ds ≠ []) (hdig : ds.all Char.isDigit = true) :
    matchLabel (("Step ".data ++ ds) ++ ':' :: rest) =
      some ("Step ".data ++ ds, ':' :: rest) := by
  have h1 : (("Step ".data ++ ds) ++ ':' :: rest) =
      "Step ".data ++ (ds ++ ':' :: rest) := by rw [List.append_assoc]
  have h1' : "Step ".data ++ (ds ++ ':' :: rest) =
      'S' :: ("tep ".data ++ (ds ++ ':' :: rest)) := rfl
  have h2 : matchLit "Introduction".data ('S' :: ("tep ".data ++ (ds ++ ':' :: rest))) = none :=
    matchLit_head_ne 'I' _ 'S' _ (by decide) (by decide)
  have h3 : matchLit "Step ".data ("Step ".data ++ (ds ++ ':' :: rest)) =
      some (ds ++ ':' :: rest) := matchLit_self_append _ _
  rw [h1'] at h3
  obtain ⟨htw, hdw⟩ := takeWhile_digits_append ds rest hdig
  rw [h1, h1']
  simp only [matchLabel, matchStepLabel, h2, h3, htw, hdw]
  rw [if_neg hne]

theorem matchLabel_valid (lab : List Char) (h : validLabelB lab = true) (rest : List Char) :
    matchLabel (lab ++ ':' :: rest) = some (lab, ':' :: rest) := by
  unfold validLabelB at h
  simp only [Bool.or_eq_true, Bool.and_eq_true, beq_iff_eq, Bool.not_eq_true',
    List.isEmpty_eq_false_iff_exists_mem] at h
  rcases h with (h | h) | ⟨⟨htake, hne⟩, hdig⟩
  · subst h; exact matchLabel_intro rest
  · subst h; exact matchLabel_concl rest
  · have hlab : lab = "Step ".data ++ lab.drop 5 := by
      conv_lhs => rw [← List.take_append_drop 5 lab]
      rw [htake]
    have hne' : lab.drop 5 ≠ [] := by
      obtain ⟨x, hx⟩ := hne
      intro hc
      rw [hc] at hx
      exact absurd hx (List.not_mem_nil x)
    rw [hlab]
    exact matchLabel_step (lab.drop 5) rest hne' hdig

theorem matchHeading_mk (w : Char) (hw : w.isWhitespace = true) (lab rest : List Char)
    (hlab : matchLabel (lab ++ ':' :: rest) = some (lab, ':' :: rest)) :
    matchHeading ('#' :: '#' :: w :: (lab ++ ':' :: rest)) =
      some ('#' :: '#' :: w :: (lab ++ [':']), lab, rest) := by
  simp [matchHeading, hlab, hw]

theorem startsWithSep_cons_ne (c : Char) (l : List Char) (h : c ≠ '-') :
    startsWithSep (c :: l) = false := by
  cases l with
  | nil => rfl
  | cons a l2 =>
    cases l2 with
    | nil => rfl
    | cons b l3 =>
      unfold startsWithSep
      simp [h]

theorem lazyBody_exact (body : List Char) (hb : ∀ c ∈ body, c ≠ '-') (rest : List Char) :
    lazyBody (body ++ '-' :: '-' :: '-' :: rest) =
      some (body, '-' :: '-' :: '-' :: rest) := by
  induction body with
  | nil =>
    rw [List.nil_append]
    unfold lazyBody
    rw [if_pos (by unfold startsWithSep; simp)]
  | cons c cs ih =>
    have hc : c ≠ '-' := hb c (by simp)
    have hsw : startsWithSep (c :: (cs ++ '-' :: '-' :: '-' :: rest)) = false :=
      startsWithSep_cons_ne c _ hc
    rw [List.cons_append]
    unfold lazyBody
    rw [if_neg (by rw [hsw]; simp), ih (fun d hd => hb d (by simp [hd]))]

theorem tryMatch_mk (lab : List Char) (hl : validLabelB lab = true)
    (body : List Char) (hb : ∀ c ∈ body, c ≠ '-') (rest : List Char) :
    tryMatch ('#' :: '#' :: ' ' :: (lab ++ ':' :: (body ++ '-' :: '-' :: '-' :: rest))) =
      some ('#' :: '#' :: ' ' :: (lab ++ ':' :: body), lab, '-' :: '-' :: '-' :: rest) := by
  have h1 := matchLabel_valid lab hl (body ++ '-' :: '-' :: '-' :: rest)
  have h2 := matchHeading_mk ' ' (by decide) lab (body ++ '-' :: '-' :: '-' :: rest) h1
  have h3 := lazyBody_exact body hb rest
  simp only [tryMatch, h2, h3]
  simp [List.append_assoc]

theorem matchHeading_cons_ne (c : Char) (l : List Char) (h : c ≠ '#') :
    matchHeading (c :: l) = none := by
  cases l with
  | nil => rfl
  | cons a l2 =>
    cases l2 with
    | nil => rfl
    | cons b l3 =>
      simp [matchHeading, h]

theorem tryMatch_cons_ne (c : Char) (l : List Char) (h : c ≠ '#') :
    tryMatch (c :: l) = none := by
  unfold tryMatch
  rw [matchHeading_cons_ne c l h]

theorem scan_mkOutline :
    ∀ secs : List (List Char × List Char),
      (∀ p ∈ secs, validLabelB p.1 = true ∧ ∀ c ∈ p.2, c ≠ '-') →
      scan (mkOutline secs) =
        secs.map (fun p => ('#' :: '#' :: ' ' :: (p.1 ++ ':' :: p.2), p.1)) := by
  intro secs
  induction secs with
  | nil => intro _; rfl
  | cons p rest ih =>
    intro h
    obtain ⟨hl, hb⟩ := h p (by simp)
    have hrest : ∀ q ∈ rest, validLabelB q.1 = true ∧ ∀ c ∈ q.2, c ≠ '-' :=
      fun q hq => h q (by simp [hq])
    show scan ('#' :: '#' :: ' ' ::
      (p.1 ++ ':' :: (p.2 ++ '-' :: '-' :: '-' :: mkOutline rest))) = _
    rw [scan_cons_some _ _ _ _ _ (tryMatch_mk p.1 hl p.2 hb (mkOutline rest))]
    rw [scan_cons_none _ _ (tryMatch_cons_ne '-' _ (by decide))]
    rw [scan_cons_none _ _ (tryMatch_cons_ne '-' _ (by decide))]
    rw [scan_cons_none _ _ (tryMatch_cons_ne '-' _ (by decide))]
    rw [ih hrest]
    simp

/-! ## Lemmas about the research loop and the file state -/

theorem applyEvents_append (a : List Event) :
    ∀ (f : List Char) (b : List Event),
      applyEvents f (a ++ b) = applyEvents (applyEvents f a) b := by
  induction a with
  | nil => intro f b; rfl
  | cons e es ih =>
    intro f b
    cases e with
    | sessionRun t =>
      simp only [List.cons_append, applyEvents]
      exact ih f b
    | append s =>
      simp only [List.cons_append, applyEvents]
      exact ih (f ++ s) b

theorem applyEvents_extends (es : List Event) :
    ∀ f : List Char, ∃ t, f ++ t = applyEvents f es := by
  induction es with
  | nil => intro f; exact ⟨[], by simp [applyEvents]⟩
  | cons e es ih =>
    intro f
    cases e with
    | sessionRun t =>
      obtain ⟨t, ht⟩ := ih f
      exact ⟨t, by simp only [applyEvents]; exact ht⟩
    | append s =>
      obtain ⟨t, ht⟩ := ih (f ++ s)
      refine ⟨s ++ t, ?_⟩
      simp only [applyEvents]
      rw [← List.append_assoc, ht]

theorem applyEvents_take (es : List Event) (f : List Char) (j : Nat) :
    ∃ t, applyEvents f (es.take j) ++ t = applyEvents f es := by
  obtain ⟨t, ht⟩ := applyEvents_extends (es.drop j) (applyEvents f (es.take j))
  exact ⟨t, by rw [ht, ← applyEvents_append, List.take_append_drop]⟩

theorem applyEvents_runLoop (o : Nat → SessionOutcome) :
    ∀ (ts : List (List Char)) (i : Nat) (f : List Char),
      applyEvents f (runLoop o i ts) = f ++ (recordsFrom o i ts).flatten := by
  intro ts
  induction ts with
  | nil => intro i f; simp [runLoop, recordsFrom, applyEvents]
  | cons t ts ih =>
    intro i f
    simp only [runLoop, recordsFrom, applyEvents, List.flatten_cons]
    rw [ih (i + 1) (f ++ sectionRecord t (o i)), List.append_assoc]

theorem runLoop_length (o : Nat → SessionOutcome) :
    ∀ (ts : List (List Char)) (i : Nat), (runLoop o i ts).length = 2 * ts.length := by
  intro ts
  induction ts with
  | nil => intro i; rfl
  | cons t ts ih =>
    intro i
    simp only [runLoop, List.length_cons, ih (i + 1), List.length_cons]
    omega

theorem recordsFrom_length (o : Nat → SessionOutcome) :
    ∀ (ts : List (List Char)) (i : Nat), (recordsFrom o i ts).length = ts.length := by
  intro ts
  induction ts with
  | nil => intro i; rfl
  | cons t ts ih =>
    intro i
    simp only [recordsFrom, List.length_cons, ih (i + 1)]

theorem recordsFrom_get? (o : Nat → SessionOutcome) :
    ∀ (ts : List (List Char)) (i k : Nat),
      (recordsFrom o i ts).get? k =
        (ts.get? k).map (fun t => sectionRecord t (o (i + k))) := by
  intro ts
  induction ts with
  | nil => intro i k; rfl
  | cons t ts ih =>
    intro i k
    cases k with
    | zero => simp [recordsFrom]
    | succ k =>
      simp only [recordsFrom, List.get?_cons_succ, ih (i + 1) k]
      have h : i + 1 + k = i + (k + 1) := by omega
      rw [h]

theorem runLoop_take (o : Nat → SessionOutcome) :
    ∀ (ts : List (List Char)) (i k : Nat),
      (runLoop o i ts).take (2 * k) = runLoop o i (ts.take k) := by
  intro ts
  induction ts with
  | nil => intro i k; simp [runLoop]
  | cons t ts ih =>
    intro i k
    cases k with
    | zero => simp [runLoop]
    | succ k =>
      have h2 : 2 * (k + 1) = 2 * k + 1 + 1 := by omega
      simp only [runLoop, List.take_succ_cons, h2, ih (i + 1) k]

theorem runLoop_get_even (o : Nat → SessionOutcome) :
    ∀ (ts : List (List Char)) (i k : Nat),
      (runLoop o i ts).get? (2 * k) = (ts.get? k).map Event.sessionRun := by
  intro ts
  induction ts with
  | nil => intro i k; rfl
  | cons t ts ih =>
    intro i k
    cases k with
    | zero => simp [runLoop]
    | succ k =>
      have h2 : 2 * (k + 1) = 2 * k + 1 + 1 := by omega
      simp only [runLoop, h2, List.get?_cons_succ, ih (i + 1) k]

theorem runLoop_get_odd (o : Nat → SessionOutcome) :
    ∀ (ts : List (List Char)) (i k : Nat),
      (runLoop o i ts).get? (2 * k + 1) =
        (ts.get? k).map (fun t => Event.append (sectionRecord t (o (i + k)))) := by
  intro ts
  induction ts with
  | nil => intro i k; rfl
  | cons t ts ih =>
    intro i k
    cases k with
    | zero => simp [runLoop]
    | succ k =>
      have h2 : 2 * (k + 1) + 1 = 2 * k + 1 + 1 + 1 := by omega
      simp only [runLoop, h2, List.get?_cons_succ, ih (i + 1) k]
      have h : i + 1 + k = i + (k + 1) := by omega
      rw [h]

theorem runLoop_sessions (o : Nat → SessionOutcome) :
    ∀ (ts : List (List Char)) (i : Nat),
      (runLoop o i ts).countP
        (fun e => match e with | .sessionRun _ => true | .append _ => false) =
        ts.length := by
  intro ts
  induction ts with
  | nil => intro i; rfl
  | cons t ts ih =>
    intro i
    simp only [runLoop, List.countP_cons, ih (i + 1)]
    simp

theorem runLoop_appends (o : Nat → SessionOutcome) :
    ∀ (ts : List (List Char)) (i : Nat),
      (runLoop o i ts).countP
        (fun e => match e with | .sessionRun _ => false | .append _ => true) =
        ts.length := by
  intro ts
  induction ts with
  | nil => intro i; rfl
  | cons t ts ih =>
    intro i
    simp only [runLoop, List.countP_cons, ih (i + 1)]
    simp

/-! ## Claims -/

/-- Claim C1, counterexample: the claim asserts that a section may end at end
of document, but the regex lookahead `(?=---)` requires a literal `---` after
the heading.  The outline `## Introduction: hi` contains one heading whose
span, per the claim, ends at end of document, yet the extractor returns no
section for it; appending `---` makes the very same section appear. -/
theorem claim1_counterexample :
    sections "## Introduction: hi".data = [] ∧
    sections "## Introduction: hi---".data =
      [("## Introduction: hi".data, "Introduction".data)] := by
  constructor <;> decide

/-- Claim C1, amended: the extractor returns, in document order, the sections
beginning at a heading `## <Introduction|Step <int>|Conclusion>:` whose span
ends immediately before the next three-dash separator; a heading with no
following separator (in particular a final section ending at end of document)
yields no section.  For every well-formed outline of `k` sections, each with
a valid label, a dash-free body and a terminating `---`, the extractor
returns exactly `k` sections in document order. -/
theorem claim1_sections_wellformed (secs : List (List Char × List Char))
    (h : ∀ p ∈ secs, validLabelB p.1 = true ∧ ∀ c ∈ p.2, c ≠ '-') :
    sections (mkOutline secs) =
      secs.map (fun p => ('#' :: '#' :: ' ' :: (p.1 ++ ':' :: p.2), p.1)) ∧
    sectionTitles (mkOutline secs) = secs.map (fun p => p.1) ∧
    (sections (mkOutline secs)).length = secs.length := by
  have hs : sections (mkOutline secs) =
      secs.map (fun p => ('#' :: '#' :: ' ' :: (p.1 ++ ':' :: p.2), p.1)) :=
    scan_mkOutline secs h
  refine ⟨hs, ?_, ?_⟩
  · simp only [sectionTitles, hs, List.map_map]
    rfl
  · rw [hs, List.length_map]

/-- Claim C1, witness: the amended theorem applied to a concrete one-section
well-formed outline. -/
theorem claim1_sections_wellformed_witness :
    sectionTitles (mkOutline [("Introduction".data, " hi".data)]) =
      ["Introduction".data] :=
  (claim1_sections_wellformed [("Introduction".data, " hi".data)] (by decide)).2.1

/-- Claim C2: over any run with at least one extracted section, the research
loop produces exactly one record per section: the final file is the initial
file followed by the concatenation, in section order, of the per-section
records, there are as many records as sections, and the record at index `k`
is exactly the record of title `k` under outcome `k` (title tag and error
annotation versus researched text both follow from `sectionRecord`). -/
theorem claim2_one_record_per_section (o : Nat → SessionOutcome) (outline f : List Char)
    (h : sectionTitles outline ≠ []) :
    research_each_step o outline = .ran (runLoop o 0 (sectionTitles outline)) ∧
    finalFile f (research_each_step o outline) =
      f ++ (recordsFrom o 0 (sectionTitles outline)).flatten ∧
    (recordsFrom o 0 (sectionTitles outline)).length = (sectionTitles outline).length ∧
    ∀ k, (recordsFrom o 0 (sectionTitles outline)).get? k =
      ((sectionTitles outline).get? k).map (fun t => sectionRecord t (o k)) := by
  have hr : research_each_step o outline = .ran (runLoop o 0 (sectionTitles outline)) := by
    unfold research_each_step
    rw [if_neg h]
  refine ⟨hr, ?_, recordsFrom_length o _ 0, ?_⟩
  · rw [hr]
    exact applyEvents_runLoop o _ 0 f
  · intro k
    have hk := recordsFrom_get? o (sectionTitles outline) 0 k
    simpa using hk

/-- Claim C2, witness: the theorem applied to a concrete two-section outline
with one success and one failure. -/
theorem claim2_witness :
    finalFile [] (research_each_step outcomesW "## Introduction: a---## Step 1: b---".data) =
      [] ++ (recordsFrom outcomesW 0
        (sectionTitles "## Introduction: a---## Step 1: b---".data)).flatten :=
  (claim2_one_record_per_section outcomesW "## Introduction: a---## Step 1: b---".data []
    (by decide)).2.1

/-- Claim C3, counterexample: the claim asserts that whenever the primary
trigger raises or times out the fallback is attempted exactly once, but the
handler catches only `TimeoutError`: a primary click that raises any other
exception reaches the session boundary with the fallback invoked zero
times. -/
theorem claim3_counterexample :
    (triggerExtraction (.raised "Element is not attached".data) .clicked).1 = 0 := by
  rfl

/-- Claim C3, amended: the fallback trigger is attempted exactly once when
the primary click times out (and never otherwise — a primary non-timeout
exception skips the fallback); when the fallback also fails an exception
reaches the session boundary; and every session-body exception is converted
to a `none` result by the boundary handler, so nothing propagates to the
caller. -/
theorem claim3_two_tier (p fb : ClickResult) :
    (p = .timeout → (triggerExtraction p fb).1 = 1) ∧
    (p = .clicked → (triggerExtraction p fb).1 = 0) ∧
    (∀ e, p = .raised e → (triggerExtraction p fb).1 = 0) ∧
    (p = .timeout → fb ≠ .clicked → (triggerExtraction p fb).2.isSome = true) ∧
    (∀ (env : SessionEnv) (e : List Char),
      sessionBody env = .error e → generate_outline env = none) := by
  refine ⟨?_, ?_, ?_, ?_, ?_⟩
  · intro hp; subst hp; cases fb <;> rfl
  · intro hp; subst hp; cases fb <;> rfl
  · intro e hp; subst hp; cases fb <;> rfl
  · intro hp hfb
    subst hp
    cases fb with
    | clicked => exact absurd rfl hfb
    | timeout => rfl
    | raised e => rfl
  · intro env e h
    unfold generate_outline
    rw [h]

/-- Claim C3, witness: a timing-out primary click is followed by exactly one
fallback attempt, and a session whose response never appears yields `none`
rather than an exception. -/
theorem claim3_witness :
    (triggerExtraction .timeout .timeout).1 = 1 ∧
    generate_outline ⟨none, none, false, .clicked, .clicked, "t".data⟩ = none :=
  ⟨(claim3_two_tier .timeout .timeout).1 rfl,
   (claim3_two_tier .clicked .clicked).2.2.2.2
     ⟨none, none, false, .clicked, .clicked, "t".data⟩ "TimeoutError".data rfl⟩

/-- Claim C4: when zero sections are recognized, `research_each_step` reports
the structural failure (the `No sections found` early return) and stops:
zero interaction sessions, zero appends, and the output file is untouched —
no crash, fatal only to the research phase. -/
theorem claim4_no_sections (o : Nat → SessionOutcome) (outline f : List Char)
    (h : sectionTitles outline = []) :
    research_each_step o outline = .noSectionsFound ∧
    sessionsOf (research_each_step o outline) = 0 ∧
    appendsOf (research_each_step o outline) = 0 ∧
    finalFile f (research_each_step o outline) = f := by
  have hr : research_each_step o outline = .noSectionsFound := by
    unfold research_each_step
    rw [if_pos h]
  exact ⟨hr, by rw [hr]; rfl, by rw [hr]; rfl, by rw [hr]; rfl⟩

/-- Claim C4, witness: the theorem applied to an outline with no recognizable
headings. -/
theorem claim4_witness :
    finalFile "seed".data
      (research_each_step (fun _ => SessionOutcome.ok "x".data)
        "Just prose with a --- separator but no headings.".data) = "seed".data :=
  (claim4_no_sections (fun _ => SessionOutcome.ok "x".data)
    "Just prose with a --- separator but no headings.".data "seed".data (by decide)).2.2.2

/-- Claim C5, counterexample: the claim requires every record — success or
failure — to start with two blank lines and the 20-`=` delimiter line, but
the record written by the per-section exception handler carries no `=`
delimiter at all. -/
theorem claim5_counterexample :
    sectionRecord "Step 1".data (.exn "boom".data) =
      "\n\n--- ERROR DURING RESEARCH FOR: Step 1 ---\nDetails: boom\n\n".data ∧
    (("\n\n".data ++ delimLine "Step 1".data).isPrefixOf
      (sectionRecord "Step 1".data (.exn "boom".data))) = false := by
  constructor <;> decide

/-- Claim C5, amended: a record written on the success path (including the
empty-clipboard substitution body) is two newlines, the delimiter line with
exactly twenty `=` on each side of the uppercased title, a blank line, then
the body; a record written by the exception handler is instead two newlines,
`--- ERROR DURING RESEARCH FOR: <title> ---` and `Details: <error>`, with no
`=` delimiter line. -/
theorem claim5_record_format (t txt e : List Char) :
    sectionRecord t (.ok txt) =
      "\n\n".data ++
        (List.replicate 20 '=' ++ ' ' :: upperChars t ++ ' ' :: List.replicate 20 '=') ++
        "\n\n".data ++ (if txt = [] then copyFailBody t else txt) ∧
    sectionRecord t (.exn e) =
      "\n\n".data ++ "--- ERROR DURING RESEARCH FOR: ".data ++ t ++
        " ---\nDetails: ".data ++ e ++ "\n\n".data := by
  constructor
  · rfl
  · show errRecord t e = _
    unfold errRecord
    rw [show ("\n\n--- ERROR DURING RESEARCH FOR: ".data : List Char) =
      "\n\n".data ++ "--- ERROR DURING RESEARCH FOR: ".data from by decide]

/-- Claim C6: the ensure-Web-Search-enabled step is idempotent: zero toggle
clicks when the checkbox state reads enabled (`checked`), exactly one click
when it reads disabled (`unchecked`) — it never toggles off an already-on
capability. -/
theorem claim6_toggle_idempotent :
    toggleClicks (some "checked".data) = 0 ∧
    toggleClicks (some "unchecked".data) = 1 := by
  constructor <;> decide

/-- Claim C7: the sanitizer keeps exactly alphanumerics, spaces and
underscores, trims trailing whitespace, then replaces spaces with
underscores (the spec-worded pipeline), and sanitizes `AI & ML: 2024!` to
`AI__ML_2024`. -/
theorem claim7_sanitize (t : List Char) :
    safe_topic t = specSanitize t ∧
    safe_topic "AI & ML: 2024!".data = "AI__ML_2024".data := by
  constructor
  · rfl
  · decide

/-- Claim C8: the output is written incrementally and append-only: the file
state after any prefix of the loop's event trace is extended (never
rewritten) by the rest of the run, so a crash mid-run preserves all prior
records; after `k` completed sections the file holds exactly the records of
the first `k` sections; and events alternate strictly — the session for
section `k` at position `2k`, its append immediately after at `2k + 1`,
before the next section's session. -/
theorem claim8_append_only (o : Nat → SessionOutcome) (ts : List (List Char)) (f : List Char) :
    (∀ j, ∃ t, applyEvents f ((runLoop o 0 ts).take j) ++ t =
      applyEvents f (runLoop o 0 ts)) ∧
    (∀ k, applyEvents f ((runLoop o 0 ts).take (2 * k)) =
      f ++ (recordsFrom o 0 (ts.take k)).flatten) ∧
    (∀ k, (runLoop o 0 ts).get? (2 * k) = (ts.get? k).map Event.sessionRun) ∧
    (∀ k, (runLoop o 0 ts).get? (2 * k + 1) =
      (ts.get? k).map (fun t => Event.append (sectionRecord t (o k)))) := by
  refine ⟨fun j => applyEvents_take _ f j, fun k => ?_,
    fun k => runLoop_get_even o ts 0 k, fun k => ?_⟩
  · rw [runLoop_take o ts 0 k, applyEvents_runLoop o _ 0 f]
  · have hk := runLoop_get_odd o ts 0 k
    simpa using hk

/-- Claim C9: the enable step clicks the toggle only when the `data-state`
attribute equals exactly the string `unchecked`; for every other value —
including an absent attribute — it performs zero clicks, and the session
proceeds identically whatever the attribute read. -/
theorem claim9_toggle_exact (s : Option (List Char)) (h : s ≠ some "unchecked".data) :
    toggleClicks s = 0 ∧
    ∀ (nav : Option (List Char)) (resp : Bool) (p fb : ClickResult)
      (clip : List Char) (s2 : Option (List Char)),
      generate_outline ⟨nav, s, resp, p, fb, clip⟩ =
        generate_outline ⟨nav, s2, resp, p, fb, clip⟩ := by
  refine ⟨?_, ?_⟩
  · unfold toggleClicks
    rw [if_neg h]
  · intro nav resp p fb clip s2
    rfl

/-- Claim C9, witness: a third state (`indeterminate`) yields zero clicks. -/
theorem claim9_witness : toggleClicks (some "indeterminate".data) = 0 :=
  (claim9_toggle_exact (some "indeterminate".data) (by decide)).1

/-- Claim C10: the fatal empty-input check looks at the raw topic, so the
nonempty topic `!!!` does not terminate the program early even though
sanitization erases it entirely, and the resulting filename has an empty
topic component: `article_research__<timestamp>.txt`. -/
theorem claim10_raw_topic_check :
    earlyExit "!!!".data = false ∧
    safe_topic "!!!".data = [] ∧
    ∀ ts : List Char, output_filename "!!!".data ts =
      "article_research__".data ++ ts ++ ".txt".data := by
  refine ⟨by decide, by decide, ?_⟩
  intro ts
  unfold output_filename
  rw [show safe_topic "!!!".data = [] from by decide]
  rw [List.append_nil]
  rw [show ("article_research_".data ++ "_".data : List Char) =
    "article_research__".data from by decide]

end ArticleBot
